import Mathlib

/-!
Verification of the Origami streaming-chat core.

Strings are modelled as `List Char`.  Each definition carries a comment
naming the source location it embeds.  The segmenter (backend
`services/ollama.py`) is not part of the provided sources, so it is
modelled from the specification text, as marked.
-/

namespace Origami

/-- ASCII letter test, embedding the regex class [a-zA-Z] used at
markdown-editor.tsx line 143. -/
def isAsciiAlpha (c : Char) : Bool :=
  (('a' ≤ c) && (c ≤ 'z')) || (('A' ≤ c) && (c ≤ 'Z'))

/-- JavaScript whitespace class \s (also the set trimmed by String.trim):
tab, LF, VT, FF, CR, space, NBSP, and the Unicode space separators. -/
def isJsWs (c : Char) : Bool :=
  c = '\t' || c = '\n' || c = '\x0b' || c = '\x0c' || c = '\r' || c = ' ' ||
  c = '\u00a0' || c = '\u1680' || ('\u2000' ≤ c && c ≤ '\u200a') ||
  c = '\u2028' || c = '\u2029' || c = '\u202f' || c = '\u205f' ||
  c = '\u3000' || c = '\ufeff'

/-- JavaScript String.trim: drop \s characters from both ends. -/
def jsTrim (s : List Char) : List Char :=
  ((s.dropWhile isJsWs).reverse.dropWhile isJsWs).reverse

/-- JavaScript String.includes: does the haystack contain the needle as a
contiguous substring? -/
def containsSub (needle : List Char) : List Char → Bool
  | [] => List.isPrefixOf needle []
  | c :: rest => List.isPrefixOf needle (c :: rest) || containsSub needle rest

/-- Remove an expected leading run of characters; none if it is absent. -/
def dropPref : List Char → List Char → Option (List Char)
  | [], s => some s
  | _ :: _, [] => none
  | c :: p, d :: s => if c = d then dropPref p s else none

/-- Is the first character (if any) an ASCII letter?  Embeds the guard
`i + 2 < json.length && /[a-zA-Z]/.test(json[i + 2])` of
markdown-editor.tsx line 143, where this list is the text after the
escape pair. -/
def headIsAlpha : List Char → Bool
  | [] => false
  | c :: _ => isAsciiAlpha c

/-- The characters produced for one backslash escape pair, embedding the
escape cases of extractField (markdown-editor.tsx lines 136-149).
`nxt` is the character after the backslash, `rest` the text after both.
The LaTeX disambiguation: backslash-b / backslash-f followed by a letter
is kept literal (lines 143-144); otherwise they decode to backspace /
form feed (lines 146-147).  Every other pair is kept literal (line 149). -/
def decodeEsc (nxt : Char) (rest : List Char) : List Char :=
  if nxt = '\"' then ['\"']
  else if nxt = '\\' then ['\\']
  else if nxt = '/' then ['/']
  else if nxt = 'n' then ['\n']
  else if nxt = 'r' then ['\r']
  else if nxt = 't' then ['\t']
  else if nxt = 'b' then (if headIsAlpha rest then ['\\', 'b'] else ['\x08'])
  else if nxt = 'f' then (if headIsAlpha rest then ['\\', 'f'] else ['\x0c'])
  else ['\\', nxt]

/-- The character walk of extractField (markdown-editor.tsx lines 131-155),
started just after the opening quote of a field value: decode escape
pairs via decodeEsc, stop at the first unescaped double quote, and keep a
trailing lone backslash literally (the `i + 1 < json.length` guard of
line 134 fails there, so line 152 pushes the raw character). -/
def scanValue : List Char → List Char
  | [] => []
  | [c] => if c = '\"' then [] else [c]
  | c :: nxt :: rest =>
    if c = '\\' then decodeEsc nxt rest ++ scanValue rest
    else if c = '\"' then []
    else c :: scanValue (nxt :: rest)

/-- Does the key pattern `"field"\s*:\s*"` match at the head of `s`?
On success, return the text right after the opening quote of the value
(the position `m.index + m[0].length` of markdown-editor.tsx line 130). -/
def matchKeyAt (field : List Char) (s : List Char) : Option (List Char) :=
  match dropPref ('\"' :: (field ++ ['\"'])) s with
  | none => none
  | some r1 =>
    match r1.dropWhile isJsWs with
    | ':' :: r2 =>
      (match r2.dropWhile isJsWs with
       | '\"' :: r3 => some r3
       | _ => none)
    | _ => none

/-- Leftmost match of the key pattern, embedding `keyRe.exec(json)` of
markdown-editor.tsx lines 126-127: try every start position from the
left, return the remainder after the first match. -/
def findKey (field : List Char) : List Char → Option (List Char)
  | [] => matchKeyAt field []
  | c :: rest =>
    match matchKeyAt field (c :: rest) with
    | some r => some r
    | none => findKey field rest

/-- extractField (markdown-editor.tsx lines 125-156): null exactly when
the key pattern is absent; otherwise the scanned value (possibly empty,
possibly running to the end of the input). -/
def extractField (json : List Char) (field : List Char) : Option (List Char) :=
  (findKey field json).map scanValue

/-- The payload recovered by tryRecoverAction
(markdown-editor.tsx lines 162-178). -/
structure ActionPayload where
  action : List Char
  message : List Char
  content : Option (List Char)
  filename : Option (List Char)
deriving DecidableEq

/-- JavaScript truthiness on a nullable string: none and the empty string
are both falsy (`!action`, and `extractField(...) || undefined`, at
markdown-editor.tsx lines 170 and 175-176). -/
def nonEmptyOpt : Option (List Char) → Option (List Char)
  | some (c :: cs) => some (c :: cs)
  | _ => none

/-- tryRecoverAction (markdown-editor.tsx lines 162-178): trim, quick
rejection (must start with a left brace and contain the quoted substring
"action"), then recover the four fields; action and message are
mandatory and must be truthy, content and filename fall back to absent
when falsy. -/
def tryRecoverAction (text : List Char) : Option ActionPayload :=
  let trimmed := jsTrim text
  if trimmed.head? = some '\x7b' ∧ containsSub ("\"action\"".toList) trimmed = true then
    match nonEmptyOpt (extractField trimmed ("action".toList)),
          nonEmptyOpt (extractField trimmed ("message".toList)) with
    | some a, some m =>
      some ⟨a, m,
        nonEmptyOpt (extractField trimmed ("content".toList)),
        nonEmptyOpt (extractField trimmed ("filename".toList))⟩
    | _, _ => none
  else none

/-- Specification-side definition for comparison with scanValue: does an
unescaped double quote occur before the end of the text, traversing
escape pairs the way the character walk does? -/
def hasUnescapedQuote : List Char → Bool
  | [] => false
  | [c] => c = '\"'
  | c :: nxt :: rest =>
    if c = '\\' then hasUnescapedQuote rest
    else if c = '\"' then true
    else hasUnescapedQuote (nxt :: rest)

/-- Specification-side definition for comparison with scanValue: decode
every remaining character up to the end of the string, never stopping. -/
def decodeToEnd : List Char → List Char
  | [] => []
  | [c] => [c]
  | c :: nxt :: rest =>
    if c = '\\' then decodeEsc nxt rest ++ decodeToEnd rest
    else c :: decodeToEnd (nxt :: rest)

/-- The test of the regex /\\[a-zA-Z]\x7b2,\x7d/ used as the early-return
guard of ensureLatexDelimiters (animated-text.tsx line 19): is there a
backslash followed by at least two ASCII letters? -/
def hasLatexCommand : List Char → Bool
  | '\\' :: c1 :: c2 :: rest =>
    (isAsciiAlpha c1 && isAsciiAlpha c2) || hasLatexCommand (c1 :: c2 :: rest)
  | _ :: rest => hasLatexCommand rest
  | [] => false

/-- ensureLatexDelimiters (animated-text.tsx lines 18-58): text without a
LaTeX-style command is returned unchanged by the guard of line 19.  The
rewriting applied when the guard passes (lines 21-57) never runs on such
text and is abstracted as the transform parameter. -/
def ensureLatexDelimiters (transform : List Char → List Char)
    (content : List Char) : List Char :=
  if hasLatexCommand content then transform content else content

/-- The payload ActionCard hands to onFileAction (part_006 lines 91-98
and 127-134). -/
structure FileActionData where
  action : List Char
  note_id : List Char
  title : List Char
  filename : List Char
  markdown : List Char
  updated_at : List Char
deriving DecidableEq

/-- The props of one mounted ActionCard (part_006 lines 100-109); the
presence of the optional onFileAction callback is the hasHandler flag. -/
structure CardProps where
  action : List Char
  filename : List Char
  markdown : List Char
  noteId : Option (List Char)
  noteTitle : Option (List Char)
  updatedAt : Option (List Char)
  hasHandler : Bool
deriving DecidableEq

/-- JavaScript a || b on a nullable string: none and the empty string
fall through to b. -/
def truthyOr (a : Option (List Char)) (b : List Char) : List Char :=
  match a with
  | some (c :: cs) => c :: cs
  | _ => b

/-- JavaScript truthiness of a nullable string. -/
def optTruthy : Option (List Char) → Bool
  | some (_ :: _) => true
  | _ => false

/-- One run of the ActionCard effect (part_006 lines 121-135): the
appliedRef latch, a falsy noteId or an absent handler suppress the call;
otherwise the latch is set and one payload is emitted.  `now` stands for
new Date().toISOString() at that run. -/
def actionCardEffect (now : List Char) (p : CardProps) (applied : Bool) :
    Bool × Option FileActionData :=
  if applied || !(optTruthy p.noteId) || !p.hasHandler then (applied, none)
  else
    (true,
     some ⟨p.action, p.noteId.getD [], truthyOr p.noteTitle p.filename,
       p.filename, p.markdown, truthyOr p.updatedAt now⟩)

/-- All onFileAction calls emitted over a sequence of effect runs of one
mounted ActionCard, threading the appliedRef latch. -/
def runEffects : List (CardProps × List Char) → Bool → List FileActionData
  | [], _ => []
  | (p, now) :: rest, applied =>
    match actionCardEffect now p applied with
    | (a2, some d) => d :: runEffects rest a2
    | (a2, none) => runEffects rest a2

/-- Body of a response the chat proxy returns to its caller. -/
inductive RouteBody where
  | jsonError (msg : List Char)
  | stream
deriving DecidableEq

/-- Status and body of a chat proxy response. -/
structure RouteResponse where
  status : Nat
  body : RouteBody
deriving DecidableEq

/-- The outcome the proxy observes from its fetch to the backend. -/
inductive FetchOutcome where
  | success (status : Nat)
  | failed
  | aborted
deriving DecidableEq

/-- The chat proxy timeout (route.ts line 10): 120000 milliseconds. -/
def chatTimeoutMs : Nat := 120000

/-- fetch Response.ok: status in the 2xx range. -/
def responseOk (status : Nat) : Bool := 200 ≤ status && status < 300

/-- The POST handler of route.ts lines 5-48 as a function of the observed
fetch outcome: an aborted fetch rejects with AbortError and is answered
with 504 "Backend request timed out", any other fetch failure with 504
"Backend request failed" (lines 20-30); a completed but non-ok response
is answered with the backend's own status and a JSON error body
(lines 33-38); an ok response is streamed through with status 200
(lines 41-47). -/
def chatPOST : FetchOutcome → RouteResponse
  | .aborted => ⟨504, .jsonError ("Backend request timed out".toList)⟩
  | .failed => ⟨504, .jsonError ("Backend request failed".toList)⟩
  | .success status =>
    if responseOk status then ⟨200, .stream⟩
    else ⟨status, .jsonError ("Backend request failed".toList)⟩

/-- How the backend behaves on one request: settles with a status at a
given time (milliseconds), errors at a given time, or never settles. -/
inductive BackendBehavior where
  | completes (at_ms : Nat) (status : Nat)
  | fails (at_ms : Nat)
  | hangs
deriving DecidableEq

/-- route.ts lines 9-10 arm an AbortController whose timer fires after
timeoutMs, so a fetch that has not settled by then rejects with
AbortError; a fetch that settles earlier is observed as-is. -/
def observedOutcome (timeoutMs : Nat) : BackendBehavior → FetchOutcome
  | .completes t status => if t < timeoutMs then .success status else .aborted
  | .fails t => if t < timeoutMs then .failed else .aborted
  | .hangs => .aborted

/-- The whole proxy round trip: observe the fetch under the 120 s timer,
answer per chatPOST. -/
def handleChat (b : BackendBehavior) : RouteResponse :=
  chatPOST (observedOutcome chatTimeoutMs b)

/-- The two kinds of segment of the streaming protocol. -/
inductive SegKind where
  | reasoning
  | answer
deriving DecidableEq

/-- A typed run of model text. -/
structure Segment where
  kind : SegKind
  text : List Char
deriving DecidableEq

/-- Modelled from the spec: the segmenter state (section 4.1; the backend
segmenter, services/ollama.py, is not among the provided sources) —
current mode (answer = outside a reasoning block), the lookback buffer of
characters that may still grow into a marker, the open segment's text,
and the closed segments so far. -/
structure SegState where
  mode : SegKind
  pending : List Char
  cur : List Char
  out : List Segment
deriving DecidableEq

/-- Modelled from the spec: the marker sought in the current mode —
outside a reasoning block the opening marker, inside it the closing
marker. -/
def markerFor (openM closeM : List Char) : SegKind → List Char
  | .answer => openM
  | .reasoning => closeM

/-- The mode after a marker completes. -/
def flipKind : SegKind → SegKind
  | .answer => .reasoning
  | .reasoning => .answer

/-- Modelled from the spec: split a buffered run that can no longer be a
whole marker into text to emit and the longest trailing part that is
still a marker prefix (the lookback buffer of section 4.1). -/
def splitKeep (m : List Char) : List Char → List Char × List Char
  | [] => ([], [])
  | c :: rest =>
    if List.isPrefixOf (c :: rest) m then ([], c :: rest)
    else
      let ek := splitKeep m rest
      (c :: ek.1, ek.2)

/-- Close the open segment when a marker completes: emit it when
nonempty. -/
def closeOut (s : SegState) : List Segment :=
  if s.cur = [] then s.out else s.out ++ [⟨s.mode, s.cur⟩]

/-- Modelled from the spec: consume one character — first try to extend
or complete a marker straddling the lookback buffer; a completed marker
flips the mode and closes the segment, a dead buffer flows into the open
segment keeping only its viable tail. -/
def feedChar (openM closeM : List Char) (s : SegState) (c : Char) : SegState :=
  let m := markerFor openM closeM s.mode
  let p := s.pending ++ [c]
  if p = m then
    ⟨flipKind s.mode, [], [], closeOut s⟩
  else if List.isPrefixOf p m then
    ⟨s.mode, p, s.cur, s.out⟩
  else
    let ek := splitKeep m p
    ⟨s.mode, ek.2, s.cur ++ ek.1, s.out⟩

/-- The segmenter's initial state: outside any reasoning block. -/
def segInit : SegState := ⟨.answer, [], [], []⟩

/-- Modelled from the spec: feed one chunk character by character
(section 4.1's per-chunk scan with the lookback buffer carried in the
state). -/
def feedSeg (openM closeM : List Char) (s : SegState) (chunk : List Char) : SegState :=
  chunk.foldl (feedChar openM closeM) s

/-- Modelled from the spec: flush at end of stream — the open segment,
together with any unconsumed partial-marker characters, is emitted as-is
when nonempty (sections 4.1 and 7). -/
def flushSeg (s : SegState) : List Segment :=
  if s.cur ++ s.pending = [] then s.out
  else s.out ++ [⟨s.mode, s.cur ++ s.pending⟩]

/-- Run the segmenter over a whole sequence of chunks and flush. -/
def runSegmenter (openM closeM : List Char) (chunks : List (List Char)) :
    List Segment :=
  flushSeg (chunks.foldl (feedSeg openM closeM) segInit)

end Origami

namespace Origami

example :
    tryRecoverAction
      ("\x7b\"action\":\"edit\",\"message\":\"Use \\beta and \\frac\x7b1\x7d\x7b2\x7d\"\x7d".toList) =
      some ⟨"edit".toList, "Use \\beta and \\frac\x7b1\x7d\x7b2\x7d".toList, none, none⟩ := by
  rfl

set_option maxRecDepth 8000 in
example :
    runSegmenter ("<think>".toList) ("</think>".toList)
      ["<thi".toList, "nk>compute 2+2".toList,
       "</think>The answer is 4.".toList] =
      [⟨.reasoning, "compute 2+2".toList⟩,
       ⟨.answer, "The answer is 4.".toList⟩] := by
  decide

/-- Helper: nonEmptyOpt never produces the empty string. -/
theorem nonEmptyOpt_ne_some_nil (o : Option (List Char)) : nonEmptyOpt o ≠ some [] := by
  rcases o with _ | l
  · simp [nonEmptyOpt]
  · rcases l with _ | ⟨c, cs⟩ <;> simp [nonEmptyOpt]

/-- C1: on the input left-brace "action":"edit","message":"Use \beta and
\frac(1)(2)" right-brace (single backslashes, literal braces), extract
returns a payload whose action is "edit" and whose message keeps the
backslash-letter sequences literally; the message contains neither a
backspace nor a form-feed control character. -/
theorem c1_latex_safe_extraction :
    tryRecoverAction
        ("\x7b\"action\":\"edit\",\"message\":\"Use \\beta and \\frac\x7b1\x7d\x7b2\x7d\"\x7d".toList) =
      some ⟨"edit".toList, "Use \\beta and \\frac\x7b1\x7d\x7b2\x7d".toList, none, none⟩
    ∧ '\x08' ∉ "Use \\beta and \\frac\x7b1\x7d\x7b2\x7d".toList
    ∧ '\x0c' ∉ "Use \\beta and \\frac\x7b1\x7d\x7b2\x7d".toList := by
  exact ⟨rfl, by decide, by decide⟩

/-- C2: the field scan decodes the six standard escapes normally; a
backslash before b or f becomes the backspace / form-feed control
character exactly when no alphabetic letter follows (headIsAlpha covers
the end-of-string case), and is otherwise kept literally; every other
escaped pair is kept as the literal two characters; and on the input
with the two-character sequence backslash-n in the message, extract
yields a message with an actual newline. -/
theorem c2_escape_decoding :
    (∀ rest : List Char, scanValue ('\\' :: '\"' :: rest) = '\"' :: scanValue rest)
  ∧ (∀ rest : List Char, scanValue ('\\' :: '\\' :: rest) = '\\' :: scanValue rest)
  ∧ (∀ rest : List Char, scanValue ('\\' :: '/' :: rest) = '/' :: scanValue rest)
  ∧ (∀ rest : List Char, scanValue ('\\' :: 'n' :: rest) = '\n' :: scanValue rest)
  ∧ (∀ rest : List Char, scanValue ('\\' :: 'r' :: rest) = '\r' :: scanValue rest)
  ∧ (∀ rest : List Char, scanValue ('\\' :: 't' :: rest) = '\t' :: scanValue rest)
  ∧ (∀ rest : List Char, headIsAlpha rest = true →
      scanValue ('\\' :: 'b' :: rest) = '\\' :: 'b' :: scanValue rest)
  ∧ (∀ rest : List Char, headIsAlpha rest = false →
      scanValue ('\\' :: 'b' :: rest) = '\x08' :: scanValue rest)
  ∧ (∀ rest : List Char, headIsAlpha rest = true →
      scanValue ('\\' :: 'f' :: rest) = '\\' :: 'f' :: scanValue rest)
  ∧ (∀ rest : List Char, headIsAlpha rest = false →
      scanValue ('\\' :: 'f' :: rest) = '\x0c' :: scanValue rest)
  ∧ (∀ (x : Char) (rest : List Char),
      x ∉ (['\"', '\\', '/', 'n', 'r', 't', 'b', 'f'] : List Char) →
      scanValue ('\\' :: x :: rest) = '\\' :: x :: scanValue rest)
  ∧ tryRecoverAction ("\x7b\"action\":\"edit\",\"message\":\"line1\\nline2\"\x7d".toList) =
      some ⟨"edit".toList, "line1\nline2".toList, none, none⟩ := by
  refine ⟨fun rest => rfl, fun rest => rfl, fun rest => rfl, fun rest => rfl,
    fun rest => rfl, fun rest => rfl, ?_, ?_, ?_, ?_, ?_, rfl⟩
  · intro rest h
    show decodeEsc 'b' rest ++ scanValue rest = '\\' :: 'b' :: scanValue rest
    have e : decodeEsc 'b' rest =
        if headIsAlpha rest then ['\\', 'b'] else ['\x08'] := rfl
    rw [e, h]
    rfl
  · intro rest h
    show decodeEsc 'b' rest ++ scanValue rest = '\x08' :: scanValue rest
    have e : decodeEsc 'b' rest =
        if headIsAlpha rest then ['\\', 'b'] else ['\x08'] := rfl
    rw [e, h]
    rfl
  · intro rest h
    show decodeEsc 'f' rest ++ scanValue rest = '\\' :: 'f' :: scanValue rest
    have e : decodeEsc 'f' rest =
        if headIsAlpha rest then ['\\', 'f'] else ['\x0c'] := rfl
    rw [e, h]
    rfl
  · intro rest h
    show decodeEsc 'f' rest ++ scanValue rest = '\x0c' :: scanValue rest
    have e : decodeEsc 'f' rest =
        if headIsAlpha rest then ['\\', 'f'] else ['\x0c'] := rfl
    rw [e, h]
    rfl
  · intro x rest hx
    simp only [List.mem_cons, List.not_mem_nil, or_false, not_or] at hx
    obtain ⟨h1, h2, h3, h4, h5, h6, h7, h8⟩ := hx
    show decodeEsc x rest ++ scanValue rest = '\\' :: x :: scanValue rest
    have e : decodeEsc x rest = ['\\', x] := by
      unfold decodeEsc
      rw [if_neg h1, if_neg h2, if_neg h3, if_neg h4, if_neg h5, if_neg h6,
        if_neg h7, if_neg h8]
    rw [e]
    rfl

/-- Witness for C2 at concrete inputs: backslash-b before letters stays
literal, backslash-b at end of input decodes to backspace, and an
unrecognized pair stays literal. -/
theorem c2_escape_decoding_witness :
    scanValue (['\\', 'b', 'e', 't', 'a'] : List Char) = ['\\', 'b', 'e', 't', 'a'] ∧
    scanValue (['\\', 'b'] : List Char) = ['\x08'] ∧
    scanValue (['\\', 'q'] : List Char) = ['\\', 'q'] := by
  obtain ⟨-, -, -, -, -, -, hbt, hbf, -, -, hoth, -⟩ := c2_escape_decoding
  exact ⟨hbt ['e', 't', 'a'] (by decide), hbf [] (by decide), hoth 'q' [] (by decide)⟩

/-- C3: extract returns a payload exactly when the quick filter passes
and both the action and the message field are recovered truthy; a
returned payload carries exactly the recovered action and message, and
its content and filename are the optional recovered values (absent when
not recovered); in every other situation the result is null. -/
theorem c3_all_or_nothing (text : List Char) :
    ((tryRecoverAction text).isSome ↔
      ((jsTrim text).head? = some '\x7b'
        ∧ containsSub ("\"action\"".toList) (jsTrim text) = true
        ∧ (nonEmptyOpt (extractField (jsTrim text) ("action".toList))).isSome
        ∧ (nonEmptyOpt (extractField (jsTrim text) ("message".toList))).isSome))
  ∧ (∀ p : ActionPayload, tryRecoverAction text = some p →
      some p.action = nonEmptyOpt (extractField (jsTrim text) ("action".toList))
      ∧ some p.message = nonEmptyOpt (extractField (jsTrim text) ("message".toList))
      ∧ p.content = nonEmptyOpt (extractField (jsTrim text) ("content".toList))
      ∧ p.filename = nonEmptyOpt (extractField (jsTrim text) ("filename".toList))) := by
  by_cases hq : (jsTrim text).head? = some '\x7b'
      ∧ containsSub ("\"action\"".toList) (jsTrim text) = true
  · constructor
    · simp only [tryRecoverAction]
      rw [if_pos hq]
      rcases ha : nonEmptyOpt (extractField (jsTrim text) ("action".toList)) with _ | a <;>
        rcases hm : nonEmptyOpt (extractField (jsTrim text) ("message".toList)) with _ | m <;>
        (simp [hq.1]; try exact hq.2)
    · intro p hp
      simp only [tryRecoverAction] at hp
      rw [if_pos hq] at hp
      rcases ha : nonEmptyOpt (extractField (jsTrim text) ("action".toList)) with _ | a <;>
        rcases hm : nonEmptyOpt (extractField (jsTrim text) ("message".toList)) with _ | m <;>
        rw [ha, hm] at hp <;>
        first
        | exact Option.noConfusion hp
        | (injection hp with h2; subst h2; exact ⟨rfl, rfl, rfl, rfl⟩)
  · have hz : tryRecoverAction text = none := by
      simp only [tryRecoverAction]
      rw [if_neg hq]
    constructor
    · rw [hz]
      exact iff_of_false (by simp) (fun h => hq ⟨h.1, h.2.1⟩)
    · intro p hp
      rw [hz] at hp
      exact absurd hp (by simp)

/-- Witness for C3: on a successful concrete input the payload's content
and filename are exactly the recovered optional values (absent here). -/
theorem c3_all_or_nothing_witness :
    (none : Option (List Char)) =
        nonEmptyOpt (extractField
          (jsTrim ("\x7b\"action\":\"create\",\"message\":\"ok\"\x7d".toList))
          ("content".toList))
    ∧ (some ("ok".toList) : Option (List Char)) =
        nonEmptyOpt (extractField
          (jsTrim ("\x7b\"action\":\"create\",\"message\":\"ok\"\x7d".toList))
          ("message".toList)) := by
  have h := (c3_all_or_nothing ("\x7b\"action\":\"create\",\"message\":\"ok\"\x7d".toList)).2
    ⟨"create".toList, "ok".toList, none, none⟩ (by rfl)
  exact ⟨h.2.2.1, h.2.1⟩

/-- C4: any input whose trimmed form does not start with a left brace or
does not contain the seven-character quoted substring "action" extracts
to null; in particular the plain sentence does, and since that sentence
has no backslash-letter command, the renderer's LaTeX-delimiter pass
returns any such text unchanged (its early-return guard; the rewriting
branch, abstracted as the transform argument, is not reached). -/
theorem c4_negative_case :
    (∀ text : List Char,
      ((jsTrim text).head? ≠ some '\x7b' ∨
        containsSub ("\"action\"".toList) (jsTrim text) = false) →
      tryRecoverAction text = none)
  ∧ tryRecoverAction ("Just a normal sentence.".toList) = none
  ∧ hasLatexCommand ("Just a normal sentence.".toList) = false
  ∧ (∀ (transform : List Char → List Char) (content : List Char),
      hasLatexCommand content = false →
      ensureLatexDelimiters transform content = content) := by
  refine ⟨?_, rfl, by decide, ?_⟩
  · intro text h
    have hq : ¬((jsTrim text).head? = some '\x7b'
        ∧ containsSub ("\"action\"".toList) (jsTrim text) = true) := by
      rcases h with h | h
      · exact fun hc => h hc.1
      · exact fun hc => Bool.noConfusion (h.symm.trans hc.2)
    simp only [tryRecoverAction]
    rw [if_neg hq]
  · intro transform content h
    simp only [ensureLatexDelimiters]
    rw [h]
    rfl

/-- Witness for C4 at concrete inputs: a brace-free reply is rejected by
the quick filter, and the command-free sentence passes through the
renderer guard unchanged. -/
theorem c4_negative_case_witness :
    tryRecoverAction ("A plain reply with no payload at all".toList) = none ∧
    ensureLatexDelimiters id ("Just an ordinary sentence here.".toList) =
      "Just an ordinary sentence here.".toList := by
  exact ⟨c4_negative_case.1 _ (Or.inl (by decide)),
    c4_negative_case.2.2.2 id _ (by decide)⟩

/-- C5: extraction is total — tryRecoverAction and extractField are
functions that, for arbitrary input, return either a payload / value or
null; concretely they handle a trailing lone backslash, an unterminated
string value, and non-JSON garbage without failing. -/
theorem c5_never_raises :
    (∀ text : List Char,
      (∃ p : ActionPayload, tryRecoverAction text = some p) ∨
        tryRecoverAction text = none)
  ∧ (∀ json field : List Char,
      (∃ v : List Char, extractField json field = some v) ∨
        extractField json field = none)
  ∧ tryRecoverAction ("\x7b\"action\":\"edit\",\"message\":\"x\\".toList) =
      some ⟨"edit".toList, "x\\".toList, none, none⟩
  ∧ extractField ("\"message\":\"no closing quote".toList) ("message".toList) =
      some ("no closing quote".toList)
  ∧ tryRecoverAction ("\x7b\"action\" gibberish with no usable fields".toList) = none
  ∧ tryRecoverAction ("*** random garbage ***".toList) = none := by
  refine ⟨?_, ?_, rfl, rfl, rfl, rfl⟩
  · intro text
    rcases h : tryRecoverAction text with _ | p
    · exact Or.inr rfl
    · exact Or.inl ⟨p, rfl⟩
  · intro json field
    rcases h : extractField json field with _ | v
    · exact Or.inr rfl
    · exact Or.inl ⟨v, rfl⟩

/-- C9: a recovered empty string for action or for message makes the
whole extraction fail (JavaScript falsiness of the empty string), and a
returned payload never reports an empty content or filename — those come
out as absent instead. -/
theorem c9_falsy_fields (text : List Char) :
    ((extractField (jsTrim text) ("action".toList) = some [] ∨
      extractField (jsTrim text) ("message".toList) = some []) →
      tryRecoverAction text = none)
  ∧ (∀ p : ActionPayload, tryRecoverAction text = some p →
      p.content ≠ some [] ∧ p.filename ≠ some []) := by
  constructor
  · intro h
    have ha : nonEmptyOpt (extractField (jsTrim text) ("action".toList)) = none ∨
        nonEmptyOpt (extractField (jsTrim text) ("message".toList)) = none := by
      rcases h with h | h
      · exact Or.inl (by rw [h]; rfl)
      · exact Or.inr (by rw [h]; rfl)
    by_cases hq : (jsTrim text).head? = some '\x7b'
        ∧ containsSub ("\"action\"".toList) (jsTrim text) = true
    · simp only [tryRecoverAction]
      rw [if_pos hq]
      rcases hA : nonEmptyOpt (extractField (jsTrim text) ("action".toList)) with _ | a <;>
        rcases hM : nonEmptyOpt (extractField (jsTrim text) ("message".toList)) with _ | m <;>
        try rfl
      rcases ha with ha | ha
      · exact Option.noConfusion (hA.symm.trans ha)
      · exact Option.noConfusion (hM.symm.trans ha)
    · simp only [tryRecoverAction]
      rw [if_neg hq]
  · intro p hp
    simp only [tryRecoverAction] at hp
    split at hp
    · rcases hA : nonEmptyOpt (extractField (jsTrim text) ("action".toList)) with _ | a <;>
        rcases hM : nonEmptyOpt (extractField (jsTrim text) ("message".toList)) with _ | m <;>
        rw [hA, hM] at hp <;>
        first
        | exact Option.noConfusion hp
        | (injection hp with h2; subst h2;
           exact ⟨nonEmptyOpt_ne_some_nil _, nonEmptyOpt_ne_some_nil _⟩)
    · exact absurd hp (by simp)

/-- Witness for C9: an empty action value fails the whole extraction,
and the payload recovered when content is present as the empty string
reports content as absent. -/
theorem c9_falsy_fields_witness :
    tryRecoverAction ("\x7b\"action\":\"\",\"message\":\"hi\"\x7d".toList) = none ∧
    (⟨"a".toList, "b".toList, none, none⟩ : ActionPayload).content ≠ some [] := by
  refine ⟨(c9_falsy_fields _).1 (Or.inl (by decide)), ?_⟩
  exact ((c9_falsy_fields
    ("\x7b\"action\":\"a\",\"message\":\"b\",\"content\":\"\"\x7d".toList)).2
    ⟨"a".toList, "b".toList, none, none⟩ (by decide)).1

/-- Helper: once no unescaped quote remains, the stopping scan and the
run-to-the-end decoder agree, step by step over the same traversal. -/
theorem scan_eq_decodeToEnd :
    ∀ l : List Char, hasUnescapedQuote l = false → scanValue l = decodeToEnd l
  | [] => fun _ => rfl
  | [c] => fun h => by
    have e : hasUnescapedQuote [c] = decide (c = '\"') := rfl
    rw [e] at h
    have hc : ¬ c = '\"' := of_decide_eq_false h
    show (if c = '\"' then [] else [c]) = [c]
    rw [if_neg hc]
  | c :: nxt :: rest => fun h => by
    by_cases hb : c = '\\'
    · subst hb
      have h' : hasUnescapedQuote rest = false := h
      have ih := scan_eq_decodeToEnd rest h'
      show decodeEsc nxt rest ++ scanValue rest = decodeEsc nxt rest ++ decodeToEnd rest
      rw [ih]
    · have hq : ¬ c = '\"' := by
        intro hc
        subst hc
        have e : hasUnescapedQuote ('\"' :: nxt :: rest) = true := rfl
        exact Bool.noConfusion (e.symm.trans h)
      have h' : hasUnescapedQuote (nxt :: rest) = false := by
        have e : hasUnescapedQuote (c :: nxt :: rest) =
            if c = '\\' then hasUnescapedQuote rest
            else if c = '\"' then true else hasUnescapedQuote (nxt :: rest) := rfl
        rw [e, if_neg hb, if_neg hq] at h
        exact h
      have ih := scan_eq_decodeToEnd (nxt :: rest) h'
      have e1 : scanValue (c :: nxt :: rest) =
          if c = '\\' then decodeEsc nxt rest ++ scanValue rest
          else if c = '\"' then [] else c :: scanValue (nxt :: rest) := rfl
      have e2 : decodeToEnd (c :: nxt :: rest) =
          if c = '\\' then decodeEsc nxt rest ++ decodeToEnd rest
          else c :: decodeToEnd (nxt :: rest) := rfl
      rw [e1, e2, if_neg hb, if_neg hq, if_neg hb, ih]

/-- C10: extractField is null exactly when the key pattern is absent, and
when the value text after the opening quote has no unescaped closing
quote the scan returns every remaining decoded character up to the end of
the input — an unterminated value never fails. -/
theorem c10_unterminated_value :
    (∀ json field : List Char,
      extractField json field = none ↔ findKey field json = none)
  ∧ (∀ tail : List Char, hasUnescapedQuote tail = false →
      scanValue tail = decodeToEnd tail) := by
  constructor
  · intro json field
    rcases h : findKey field json with _ | r <;> simp [extractField, h]
  · exact scan_eq_decodeToEnd

/-- Witness for C10: a quote-free unterminated tail with LaTeX escapes
decodes in full. -/
theorem c10_unterminated_value_witness :
    scanValue ("tail with \\beta and no close".toList) =
      decodeToEnd ("tail with \\beta and no close".toList) := by
  exact c10_unterminated_value.2 _ (by decide)

/-- Helper: once the appliedRef latch of a mounted ActionCard is set, no
further effect run ever emits a call. -/
theorem runEffects_latched : ∀ runs : List (CardProps × List Char),
    runEffects runs true = []
  | [] => rfl
  | (_p, _now) :: rest => runEffects_latched rest

/-- C6: over any sequence of effect runs of one mounted ActionCard, the
onFileAction side effect fires at most once; and when the props carry a
truthy noteId and a handler, a delivery followed by any number of
redeliveries fires exactly one call, built from the props of the first
delivery. -/
theorem c6_idempotent_application :
    (∀ runs : List (CardProps × List Char), (runEffects runs false).length ≤ 1)
  ∧ (∀ (p : CardProps) (now : List Char) (rest : List (CardProps × List Char)),
      optTruthy p.noteId = true → p.hasHandler = true →
      runEffects ((p, now) :: rest) false =
        [⟨p.action, p.noteId.getD [], truthyOr p.noteTitle p.filename,
          p.filename, p.markdown, truthyOr p.updatedAt now⟩]) := by
  constructor
  · intro runs
    induction runs with
    | nil => simp [runEffects]
    | cons pr rest ih =>
      obtain ⟨p, now⟩ := pr
      by_cases hg : (false || !(optTruthy p.noteId) || !p.hasHandler) = true
      · have e : actionCardEffect now p false = (false, none) := by
          simp only [actionCardEffect]
          rw [if_pos hg]
        have e2 : runEffects ((p, now) :: rest) false = runEffects rest false := by
          simp only [runEffects]
          rw [e]
        rw [e2]
        exact ih
      · have e : actionCardEffect now p false =
            (true, some ⟨p.action, p.noteId.getD [], truthyOr p.noteTitle p.filename,
              p.filename, p.markdown, truthyOr p.updatedAt now⟩) := by
          simp only [actionCardEffect]
          rw [if_neg hg]
        have e2 : runEffects ((p, now) :: rest) false =
            ⟨p.action, p.noteId.getD [], truthyOr p.noteTitle p.filename,
              p.filename, p.markdown, truthyOr p.updatedAt now⟩ :: runEffects rest true := by
          simp only [runEffects]
          rw [e]
        rw [e2, runEffects_latched]
        simp
  · intro p now rest h1 h2
    have hg : ¬ (false || !(optTruthy p.noteId) || !p.hasHandler) = true := by
      rw [h1, h2]
      decide
    have e : actionCardEffect now p false =
        (true, some ⟨p.action, p.noteId.getD [], truthyOr p.noteTitle p.filename,
          p.filename, p.markdown, truthyOr p.updatedAt now⟩) := by
      simp only [actionCardEffect]
      rw [if_neg hg]
    have e2 : runEffects ((p, now) :: rest) false =
        ⟨p.action, p.noteId.getD [], truthyOr p.noteTitle p.filename,
          p.filename, p.markdown, truthyOr p.updatedAt now⟩ :: runEffects rest true := by
      simp only [runEffects]
      rw [e]
    rw [e2, runEffects_latched]

/-- Witness for C6: delivering the same payload twice under the same
mounted card yields exactly one onFileAction call, built from the first
delivery. -/
theorem c6_idempotent_application_witness :
    runEffects
      [(⟨"edit_current".toList, "notes.md".toList, "# body".toList,
          some ("note-1".toList), none, none, true⟩, "2026-01-01".toList),
       (⟨"edit_current".toList, "notes.md".toList, "# body".toList,
          some ("note-1".toList), none, none, true⟩, "2026-01-02".toList)] false =
      [⟨"edit_current".toList, "note-1".toList, "notes.md".toList,
        "notes.md".toList, "# body".toList, "2026-01-01".toList⟩] := by
  exact c6_idempotent_application.2 _ _ _ (by decide) (by decide)

/-- Helper: feeding a concatenation of two chunks equals feeding them in
sequence. -/
theorem feedSeg_append (openM closeM : List Char) (s : SegState) (a b : List Char) :
    feedSeg openM closeM s (a ++ b) = feedSeg openM closeM (feedSeg openM closeM s a) b := by
  simp [feedSeg, List.foldl_append]

/-- Helper: folding the segmenter over a chunk list equals feeding the
concatenation of all chunks. -/
theorem foldl_feedSeg_flatten (openM closeM : List Char) :
    ∀ (chunks : List (List Char)) (s : SegState),
      chunks.foldl (feedSeg openM closeM) s = feedSeg openM closeM s chunks.flatten
  | [], s => rfl
  | c :: cs, s => by
    rw [List.foldl_cons, foldl_feedSeg_flatten openM closeM cs, List.flatten_cons,
      feedSeg_append]

/-- C7: for every pair of markers and every way of splitting a text into
chunks, running the segmenter over the split sequence (with the final
flush) produces exactly the segments of running it over the whole text as
one chunk. -/
theorem c7_chunk_boundary_invariance (openM closeM : List Char)
    (chunks : List (List Char)) :
    runSegmenter openM closeM chunks = runSegmenter openM closeM [chunks.flatten] := by
  unfold runSegmenter
  rw [foldl_feedSeg_flatten, List.foldl_cons, List.foldl_nil]

/-- C8: the proxy timer is 120000 ms = 120 s; a backend fetch still
pending at the timer is aborted and answered 504 "Backend request timed
out"; a fetch failing before the timer is answered 504 "Backend request
failed"; a non-ok backend response is answered with the backend's own
status and a JSON error body instead of a stream; an ok response streams.
No case escapes the handler. -/
theorem c8_proxy_timeout :
    chatTimeoutMs = 120000
  ∧ (∀ t status : Nat, chatTimeoutMs ≤ t →
      handleChat (.completes t status) =
        ⟨504, .jsonError ("Backend request timed out".toList)⟩)
  ∧ handleChat .hangs = ⟨504, .jsonError ("Backend request timed out".toList)⟩
  ∧ (∀ t : Nat, t < chatTimeoutMs →
      handleChat (.fails t) = ⟨504, .jsonError ("Backend request failed".toList)⟩)
  ∧ (∀ t status : Nat, t < chatTimeoutMs → responseOk status = false →
      handleChat (.completes t status) =
        ⟨status, .jsonError ("Backend request failed".toList)⟩)
  ∧ (∀ t status : Nat, t < chatTimeoutMs → responseOk status = true →
      handleChat (.completes t status) = ⟨200, .stream⟩) := by
  refine ⟨rfl, ?_, rfl, ?_, ?_, ?_⟩
  · intro t status h
    have hn : ¬ t < chatTimeoutMs := not_lt.mpr h
    simp [handleChat, observedOutcome, chatPOST, hn]
  · intro t h
    simp [handleChat, observedOutcome, chatPOST, h]
  · intro t status h hok
    simp [handleChat, observedOutcome, chatPOST, h, hok]
  · intro t status h hok
    simp [handleChat, observedOutcome, chatPOST, h, hok]

/-- Witness for C8 at concrete times and statuses: the timer boundary, an
early network failure, a non-ok status, and an ok status. -/
theorem c8_proxy_timeout_witness :
    handleChat (.completes 120000 200) =
      ⟨504, .jsonError ("Backend request timed out".toList)⟩ ∧
    handleChat (.fails 5) = ⟨504, .jsonError ("Backend request failed".toList)⟩ ∧
    handleChat (.completes 10 500) =
      ⟨500, .jsonError ("Backend request failed".toList)⟩ ∧
    handleChat (.completes 10 204) = ⟨200, .stream⟩ := by
  obtain ⟨-, h2, -, h4, h5, h6⟩ := c8_proxy_timeout
  exact ⟨h2 120000 200 (by decide), h4 5 (by decide),
    h5 10 500 (by decide) (by decide), h6 10 204 (by decide) (by decide)⟩

end Origami
